import Mathlib

/-!
# Verification of the solar key-value feed store (`src/solar/src/storage/kv.rs`)

A shallow embedding of the `KvStorage` implementation.  The underlying sled
database is modelled as an association list from byte-list keys to values,
kept sorted by the lexicographic byte order (sled is an ordered key-value
store; range scans enumerate keys in that order).  Strings (author ids,
message ids, blob ids) are modelled as their UTF-8 byte lists.  Serialized
payloads (CBOR records, KVT JSON strings) are modelled by an abstract value
type `Val` whose constructors stand for the distinct injective encodings;
raw big-endian integers are modelled by explicit 8-byte lists.

Machine integers (`u64`) are modelled as `Nat`; the big-endian codec
truncates to 64 bits exactly where the Rust byte conversion does.

Fallible operations return `Except Err _`.  Mutating operations return the
database alongside the result, because sled writes persist even when the
surrounding function returns an error later.  A Rust panic (the
`copy_from_slice` length mismatch in `buffer_to_u64`) is modelled by the
distinguished error `Err.Panicked`, which no `Result` in the source ever
carries.
-/

deriving instance DecidableEq for Except

namespace Solar

/-- Byte strings: lists of byte values (each `< 256` in every reachable use;
the bound is irrelevant to the claims). -/
abbrev Bytes := List Nat

/-- Lexicographic strict order on byte strings, as sled orders its keys. -/
def byteLt : Bytes → Bytes → Bool
  | [], [] => false
  | [], _ :: _ => true
  | _ :: _, [] => false
  | a :: as, b :: bs => a < b || (a == b && byteLt as bs)

/-- Reflexive closure of `byteLt`. -/
def byteLe (a b : Bytes) : Bool := byteLt a b || a == b

/-- Big-endian 8-byte encoding of a `u64` (`u64::to_be_bytes`). -/
def be_bytes (n : Nat) : Bytes :=
  [n / 2 ^ 56 % 256, n / 2 ^ 48 % 256, n / 2 ^ 40 % 256, n / 2 ^ 32 % 256,
   n / 2 ^ 24 % 256, n / 2 ^ 16 % 256, n / 2 ^ 8 % 256, n % 256]

/-- Big-endian value of a byte string (`u64::from_be_bytes`). -/
def beToNat (b : Bytes) : Nat := b.foldl (fun acc x => acc * 256 + x) 0

/-- `buffer_to_u64` from kv.rs.  `copy_from_slice` panics unless the buffer
is exactly 8 bytes long; the panic outcome is modelled by `none`. -/
def buffer_to_u64 (buffer : Bytes) : Option Nat :=
  if buffer.length = 8 then some (beToNat buffer) else none

/-- The error kinds observable from the store.  `OptionIsNone`,
`InvalidSequence` and `Indexes` are the `Error` variants raised in kv.rs.
Modelled from the spec: the repository's error enum itself (error.rs) is not
part of the sources; `StorageCorruption` is the distinct kind that spec §7
postulates for invariant-violating absences (the code never produces it),
`Deser` stands for its *SerializationFailure*, and `Panicked` models a Rust
panic rather than a returned error. -/
inductive Err
  | OptionIsNone
  | InvalidSequence
  | Indexes
  | StorageCorruption
  | Deser
  | Panicked
deriving DecidableEq, Repr

/-- The `PubKeyAndSeqNum` record persisted as the `msg_val` reference. -/
structure PubKeyAndSeqNum where
  pub_key : Bytes
  seq_num : Nat
deriving DecidableEq, Repr

/-- The `BlobStatus` record. -/
structure BlobStatus where
  retrieved : Bool
  users : List Bytes
deriving DecidableEq, Repr

/-- A signed message value (`kuska_ssb::feed::Message`): author id,
declared sequence number, canonical content-hash id, opaque payload. -/
structure MessageValue where
  author : Bytes
  sequence : Nat
  id : Bytes
  content : Bytes
deriving DecidableEq, Repr

/-- A message KVT (`kuska_ssb::feed::Feed`): the message value together with
its key (the message id) and an optional received timestamp. -/
structure MessageKvt where
  key : Bytes
  value : MessageValue
  rts : Option Nat
deriving DecidableEq, Repr

/-- `MessageKvt::new`: wraps a message value, keying it by the message id.
The reception timestamp assigned by the constructor is abstracted as `0`;
`append_feed` clears it before persisting. -/
def MessageKvt.new (mv : MessageValue) : MessageKvt :=
  { key := mv.id, value := mv, rts := some 0 }

/-- `MessageKvt::into_message`: extracts the message value. -/
def MessageKvt.into_message (k : MessageKvt) : MessageValue := k.value

/-- A persisted value: either raw bytes or one of the abstract injective
serializations used by kv.rs (CBOR of `PubKeyAndSeqNum`, CBOR of
`BlobStatus`, the JSON string of a `MessageKvt`). -/
inductive Val
  | bytes (b : Bytes)
  | cborRef (r : PubKeyAndSeqNum)
  | cborBlob (s : BlobStatus)
  | kvtStr (k : MessageKvt)
deriving DecidableEq, Repr

/-- The sled database: an association list sorted by `byteLt` on keys. -/
abbrev Db := List (Bytes × Val)

/-- Key lookup (`sled::Db::get`). -/
def dbGet (db : Db) (k : Bytes) : Option Val :=
  match db with
  | [] => none
  | (k', v) :: rest => if k' = k then some v else dbGet rest k

/-- Key insertion (`sled::Db::insert`), keeping the list sorted and
replacing an existing binding. -/
def dbInsert (k : Bytes) (v : Val) : Db → Db
  | [] => [(k, v)]
  | (k', v') :: rest =>
    if byteLt k k' then (k, v) :: (k', v') :: rest
    else if k = k' then (k, v) :: rest
    else (k', v') :: dbInsert k v rest

/-- Key removal (`sled::Db::remove`). -/
def dbRemove (k : Bytes) : Db → Db
  | [] => []
  | (k', v') :: rest =>
    if k' = k then rest else (k', v') :: dbRemove k rest

/-- Range scan (`sled::Db::range(lo..hi)`): all entries with
`lo ≤ key < hi`, in key order. -/
def dbRange (db : Db) (lo hi : Bytes) : List (Bytes × Val) :=
  db.filter fun p => byteLe lo p.1 && byteLt p.1 hi

/-- `PREFIX_LATEST_SEQ`. -/
def PREFIX_LATEST_SEQ : Nat := 0
/-- `PREFIX_MSG_KVT`. -/
def PREFIX_MSG_KVT : Nat := 1
/-- `PREFIX_MSG_VAL`. -/
def PREFIX_MSG_VAL : Nat := 2
/-- `PREFIX_BLOB`. -/
def PREFIX_BLOB : Nat := 3
/-- `PREFIX_PEER`. -/
def PREFIX_PEER : Nat := 4

/-- `key_latest_seq`. -/
def key_latest_seq (user_id : Bytes) : Bytes := PREFIX_LATEST_SEQ :: user_id

/-- `key_msg_kvt`: prefix, then the big-endian sequence, then the author. -/
def key_msg_kvt (user_id : Bytes) (msg_seq : Nat) : Bytes :=
  PREFIX_MSG_KVT :: (be_bytes msg_seq ++ user_id)

/-- `key_msg_val`. -/
def key_msg_val (msg_id : Bytes) : Bytes := PREFIX_MSG_VAL :: msg_id

/-- `key_blob`. -/
def key_blob (blob_id : Bytes) : Bytes := PREFIX_BLOB :: blob_id

/-- `key_peer`. -/
def key_peer (user_id : Bytes) : Bytes := PREFIX_PEER :: user_id

/-- The reserved counter key, the UTF-8 bytes of `solar:global_seq`. -/
def globalOrderKey : Bytes :=
  [115, 111, 108, 97, 114, 58, 103, 108, 111, 98, 97, 108, 95, 115, 101, 113]

/-- The reserved bootstrap-flag key, the UTF-8 bytes of
`solar:global_order`. -/
def globalOrderFlagKey : Bytes :=
  [115, 111, 108, 97, 114, 58, 103, 108, 111, 98, 97, 108, 95, 111, 114,
   100, 101, 114]

/-- The UTF-8 bytes of the forward-entry spelling `global_seq:`. -/
def globalSeqTag : Bytes := [103, 108, 111, 98, 97, 108, 95, 115, 101, 113, 58]

/-- The UTF-8 bytes of the misspelled reverse-entry tag `gloabl_seq:`
that kv.rs actually writes (line 421). -/
def gloablSeqTag : Bytes := [103, 108, 111, 97, 98, 108, 95, 115, 101, 113, 58]

/-- ASCII decimal digits of a natural number, fuel-indexed helper. -/
def natDecAux : Nat → Nat → Bytes → Bytes
  | 0, _, acc => acc
  | f + 1, n, acc =>
    if n = 0 then acc else natDecAux f (n / 10) ((48 + n % 10) :: acc)

/-- ASCII decimal rendering of a natural number (`format!("{}", n)`). -/
def natDec (n : Nat) : Bytes :=
  if n = 0 then [48] else natDecAux (n + 1) n []

/-- The forward global-order key `global_seq:<n>`. -/
def globalSeqFwKey (n : Nat) : Bytes := globalSeqTag ++ natDec n

/-- The reverse global-order key kv.rs writes: `gloabl_seq:<msg_key>`
(note the transposed letters, contradicting the comment above it). -/
def gloablSeqRevKey (msg_key : Bytes) : Bytes := gloablSeqTag ++ msg_key

/-- The `KvStorage` struct: all three handles are `Option`-wrapped and
unwrapped with `ok_or(Error::OptionIsNone)` on use.  The indexer and the
broker channel are opaque collaborators, modelled by presence flags. -/
structure Store where
  db : Option Db
  indexes : Option Unit
  ch_broker : Option Unit
deriving DecidableEq, Repr

/-- Lookup in a store's database, `none` when the database handle is unset
or the key is absent. -/
def Store.get? (s : Store) (k : Bytes) : Option Val :=
  match s.db with
  | none => none
  | some db => dbGet db k

/-- `get_latest_seq` body once the database handle is available: read
`key_latest_seq`, decode the value via `buffer_to_u64`.  A stored value
that is not an 8-byte buffer makes `copy_from_slice` panic
(`Err.Panicked`); a non-raw serialized value is likewise not 8 bytes. -/
def getLatestSeqDb (db : Db) (user_id : Bytes) : Except Err (Option Nat) :=
  match dbGet db (key_latest_seq user_id) with
  | none => .ok none
  | some (.bytes b) =>
    match buffer_to_u64 b with
    | some n => .ok (some n)
    | none => .error .Panicked
  | some _ => .error .Panicked

/-- `get_msg_kvt` body: read `key_msg_kvt`, parse with
`MessageKvt::from_slice` (failure on a non-KVT payload). -/
def getMsgKvtDb (db : Db) (user_id : Bytes) (msg_seq : Nat) :
    Except Err (Option MessageKvt) :=
  match dbGet db (key_msg_kvt user_id msg_seq) with
  | none => .ok none
  | some (.kvtStr k) => .ok (some k)
  | some _ => .error .Deser

/-- `get_global_order_seq` body: read the counter key, 0 when absent,
decode via `buffer_to_u64` otherwise. -/
def getGlobalOrderSeqDb (db : Db) : Except Err Nat :=
  match dbGet db globalOrderKey with
  | none => .ok 0
  | some (.bytes b) =>
    match buffer_to_u64 b with
    | some n => .ok n
    | none => .error .Panicked
  | some _ => .error .Panicked

/-- `increment_global_seq` body: read the counter, write the forward entry
`global_seq:<n>`, the (misspelled) reverse entry `gloabl_seq:<msg_key>`,
and the updated counter.  All writes happen after the only fallible read,
so an error carries no mutation. -/
def incrementGlobalSeqDb (db : Db) (msg_key : Bytes) : Except Err Db :=
  match getGlobalOrderSeqDb db with
  | .error e => .error e
  | .ok g =>
    let n := g + 1
    let db := dbInsert (globalSeqFwKey n) (Val.bytes msg_key) db
    let db := dbInsert (gloablSeqRevKey msg_key) (Val.bytes (be_bytes n)) db
    let db := dbInsert globalOrderKey (Val.bytes (be_bytes n)) db
    .ok db

/-- `set_peer` body: write the big-endian latest sequence under
`key_peer`. -/
def setPeerDb (db : Db) (user_id : Bytes) (latest_seq : Nat) : Db :=
  dbInsert (key_peer user_id) (Val.bytes (be_bytes latest_seq)) db

/-- The loop body of `get_peers`: for each scanned key, drop the prefix
byte (the lossy UTF-8 decode is modelled as the identity on the bytes) and
read the authoritative latest sequence, defaulting to 0. -/
def peersLoop (db : Db) : List (Bytes × Val) → Except Err (List (Bytes × Nat))
  | [] => .ok []
  | (k, _) :: rest =>
    match getLatestSeqDb db (k.drop 1) with
    | .error e => .error e
    | .ok o =>
      match peersLoop db rest with
      | .error e => .error e
      | .ok l => .ok ((k.drop 1, o.getD 0) :: l)

/-- `get_peers` body: range-scan `[PREFIX_PEER, PREFIX_PEER + 1)`. -/
def getPeersDb (db : Db) : Except Err (List (Bytes × Nat)) :=
  peersLoop db (dbRange db [PREFIX_PEER] [PREFIX_PEER + 1])

/-- The loop body of `get_pending_blobs`: decode each scanned value as a
`BlobStatus` and keep the ids (key bytes after the prefix) of the
non-retrieved ones, in scan order. -/
def pendingLoop : List (Bytes × Val) → Except Err (List Bytes)
  | [] => .ok []
  | (k, v) :: rest =>
    match v with
    | .cborBlob blob =>
      match pendingLoop rest with
      | .error e => .error e
      | .ok l => .ok (if blob.retrieved then l else k.drop 1 :: l)
    | _ => .error .Deser

/-- `get_pending_blobs` body: range-scan `[PREFIX_BLOB, PREFIX_BLOB + 1)`. -/
def getPendingBlobsDb (db : Db) : Except Err (List Bytes) :=
  pendingLoop (dbRange db [PREFIX_BLOB] [PREFIX_BLOB + 1])

/-- The loop of `get_feed`: fetch KVTs at sequences
`start, start+1, …, start+cnt-1`; a missing entry is
`Error::OptionIsNone` (kv.rs line 352). -/
def feedLoop (db : Db) (user_id : Bytes) : Nat → Nat → Except Err (List MessageKvt)
  | _, 0 => .ok []
  | start, c + 1 =>
    match getMsgKvtDb db user_id start with
    | .error e => .error e
    | .ok none => .error .OptionIsNone
    | .ok (some kvt) =>
      match feedLoop db user_id (start + 1) c with
      | .error e => .error e
      | .ok l => .ok (kvt :: l)

/-- The inner loop of `build_global_order_index`: for one peer, walk
sequences `start, …, start+cnt-1`, fetching each KVT and assigning it the
next global sequence number. -/
def indexFeedDb (user_id : Bytes) : Db → Nat → Nat → Except Err Db
  | db, _, 0 => .ok db
  | db, start, c + 1 =>
    match getMsgKvtDb db user_id start with
    | .error e => .error e
    | .ok none => .error .OptionIsNone
    | .ok (some kvt) =>
      match incrementGlobalSeqDb db kvt.key with
      | .error e => .error e
      | .ok db' => indexFeedDb user_id db' (start + 1) c

/-- The outer loop of `build_global_order_index` over the peer list. -/
def indexPeersDb : Db → List (Bytes × Nat) → Except Err Db
  | db, [] => .ok db
  | db, (pk, latest) :: rest =>
    match indexFeedDb pk db 1 latest with
    | .error e => .error e
    | .ok db' => indexPeersDb db' rest

/-- `build_global_order_index` body: delete the counter key, then
enumerate peers (errors there surface as `Error::Indexes`) and index each
feed in sequence order. -/
def buildGlobalOrderIndexDb (db : Db) : Except Err Db :=
  let db := dbRemove globalOrderKey db
  match getPeersDb db with
  | .error _ => .error .Indexes
  | .ok peers => indexPeersDb db peers

/-- `Indexes::index_msg`.  Modelled from the spec: the indexer is an opaque
collaborator whose sources are outside src/; it consumes the committed
message and is modelled as always succeeding. -/
def index_msg (_author : Bytes) (_mv : MessageValue) : Except Err Unit := .ok ()

/-- `append_feed` body, given the database and the two other handles.
Returns the database as mutated so far together with the result, since
sled writes persist even when a later step fails. -/
def appendFeedDb (db : Db) (ixs ch : Option Unit) (mv : MessageValue) :
    Db × Except Err Nat :=
  match getLatestSeqDb db mv.author with
  | .error e => (db, .error e)
  | .ok lo =>
    let seq_num := lo.getD 0 + 1
    if mv.sequence ≠ seq_num then (db, .error .InvalidSequence)
    else
      let db := dbInsert (key_msg_val mv.id)
        (Val.cborRef { pub_key := mv.author, seq_num := seq_num }) db
      let msg_kvt := MessageKvt.new mv
      match incrementGlobalSeqDb db msg_kvt.key with
      | .error e => (db, .error e)
      | .ok db =>
        let msg_kvt := { msg_kvt with rts := none }
        let db := dbInsert (key_msg_kvt mv.author seq_num) (Val.kvtStr msg_kvt) db
        let db := dbInsert (key_latest_seq mv.author)
          (Val.bytes (be_bytes seq_num)) db
        let db := setPeerDb db mv.author seq_num
        let idx : Except Err Unit :=
          match ixs with
          | some _ => index_msg mv.author mv
          | none => .ok ()
        match idx with
        | .error e => (db, .error e)
        | .ok _ =>
          match ch with
          | none => (db, .error .OptionIsNone)
          | some _ => (db, .ok seq_num)

/-- `get_latest_seq`. -/
def get_latest_seq (s : Store) (user_id : Bytes) : Except Err (Option Nat) :=
  match s.db with
  | none => .error .OptionIsNone
  | some db => getLatestSeqDb db user_id

/-- `get_msg_kvt`. -/
def get_msg_kvt (s : Store) (user_id : Bytes) (msg_seq : Nat) :
    Except Err (Option MessageKvt) :=
  match s.db with
  | none => .error .OptionIsNone
  | some db => getMsgKvtDb db user_id msg_seq

/-- `get_msg_val`: fetch the `msg_val` reference, then the KVT it points
to.  A reference to a missing KVT is `Error::OptionIsNone`
(kv.rs line 215). -/
def get_msg_val (s : Store) (msg_id : Bytes) : Except Err (Option MessageValue) :=
  match s.db with
  | none => .error .OptionIsNone
  | some db =>
    match dbGet db (key_msg_val msg_id) with
    | none => .ok none
    | some (.cborRef msg_ref) =>
      match getMsgKvtDb db msg_ref.pub_key msg_ref.seq_num with
      | .error e => .error e
      | .ok none => .error .OptionIsNone
      | .ok (some kvt) => .ok (some kvt.into_message)
    | some _ => .error .Deser

/-- `get_blob`. -/
def get_blob (s : Store) (blob_id : Bytes) : Except Err (Option BlobStatus) :=
  match s.db with
  | none => .error .OptionIsNone
  | some db =>
    match dbGet db (key_blob blob_id) with
    | none => .ok none
    | some (.cborBlob blob) => .ok (some blob)
    | some _ => .error .Deser

/-- `set_blob`. -/
def set_blob (s : Store) (blob_id : Bytes) (blob : BlobStatus) :
    Store × Except Err Unit :=
  match s.db with
  | none => (s, .error .OptionIsNone)
  | some db =>
    ({ s with db := some (dbInsert (key_blob blob_id) (Val.cborBlob blob) db) },
     .ok ())

/-- `get_pending_blobs`. -/
def get_pending_blobs (s : Store) : Except Err (List Bytes) :=
  match s.db with
  | none => .error .OptionIsNone
  | some db => getPendingBlobsDb db

/-- `set_peer`. -/
def set_peer (s : Store) (user_id : Bytes) (latest_seq : Nat) :
    Store × Except Err Unit :=
  match s.db with
  | none => (s, .error .OptionIsNone)
  | some db => ({ s with db := some (setPeerDb db user_id latest_seq) }, .ok ())

/-- `get_peers`. -/
def get_peers (s : Store) : Except Err (List (Bytes × Nat)) :=
  match s.db with
  | none => .error .OptionIsNone
  | some db => getPeersDb db

/-- `get_global_order_seq`. -/
def get_global_order_seq (s : Store) : Except Err Nat :=
  match s.db with
  | none => .error .OptionIsNone
  | some db => getGlobalOrderSeqDb db

/-- `increment_global_seq`. -/
def increment_global_seq (s : Store) (msg_key : Bytes) :
    Store × Except Err Unit :=
  match s.db with
  | none => (s, .error .OptionIsNone)
  | some db =>
    match incrementGlobalSeqDb db msg_key with
    | .error e => (s, .error e)
    | .ok db' => ({ s with db := some db' }, .ok ())

/-- `append_feed`. -/
def append_feed (s : Store) (mv : MessageValue) : Store × Except Err Nat :=
  match s.db with
  | none => (s, .error .OptionIsNone)
  | some db =>
    let r := appendFeedDb db s.indexes s.ch_broker mv
    ({ s with db := some r.1 }, r.2)

/-- `get_feed`: the sequences `1..=latest_seq`, or the empty list when the
author has no latest-seequence entry. -/
def get_feed (s : Store) (user_id : Bytes) : Except Err (List MessageKvt) :=
  match s.db with
  | none => .error .OptionIsNone
  | some db =>
    match getLatestSeqDb db user_id with
    | .error e => .error e
    | .ok none => .ok []
    | .ok (some latest_seq) => feedLoop db user_id 1 latest_seq

/-- The store as populated by `open` before its bootstrap logic runs. -/
def openStore (db0 : Db) : Store :=
  { db := some db0, indexes := some (), ch_broker := some () }

/-- `open`, given the database contents found on disk.  Returns the store
and, on success, whether the global-order bootstrap branch ran.  The code
takes that branch exactly when the stored counter reads 0 — the
`solar:global_order` flag is written afterwards but never consulted
(kv.rs lines 86-98). -/
def openKv (db0 : Db) : Store × Except Err Bool :=
  let s := openStore db0
  match get_global_order_seq s with
  | .error e => (s, .error e)
  | .ok global_order_seq =>
    if global_order_seq = 0 then
      match s.db with
      | none => (s, .error .OptionIsNone)
      | some db =>
        match buildGlobalOrderIndexDb db with
        | .error e => (s, .error e)
        | .ok db' =>
          let db'' := dbInsert globalOrderFlagKey (Val.bytes [1]) db'
          ({ s with db := some db'' }, .ok true)
    else (s, .ok false)

/-- The database produced by a successful append of `mv` at sequence
`seqn` when the global counter advances to `n`: the seven inserts of
`append_feed`, `increment_global_seq` and `set_peer`, in program order. -/
def appendedDb (db : Db) (mv : MessageValue) (seqn n : Nat) : Db :=
  setPeerDb
    (dbInsert (key_latest_seq mv.author) (Val.bytes (be_bytes seqn))
      (dbInsert (key_msg_kvt mv.author seqn)
        (Val.kvtStr { key := mv.id, value := mv, rts := none })
        (dbInsert globalOrderKey (Val.bytes (be_bytes n))
          (dbInsert (gloablSeqRevKey mv.id) (Val.bytes (be_bytes n))
            (dbInsert (globalSeqFwKey n) (Val.bytes mv.id)
              (dbInsert (key_msg_val mv.id)
                (Val.cborRef { pub_key := mv.author, seq_num := seqn }) db))))))
    mv.author seqn

/-- The filter `get_pending_blobs` applies to a scanned entry: keep it
when its value is a blob record whose `retrieved` flag is false. -/
def isPendingBlob (p : Bytes × Val) : Bool :=
  match p.2 with
  | .cborBlob st => !st.retrieved
  | _ => false

/-! ## Basic properties of the database model -/

theorem dbGet_insert_self (k : Bytes) (v : Val) (db : Db) :
    dbGet (dbInsert k v db) k = some v := by
  induction db with
  | nil => simp [dbInsert, dbGet]
  | cons p rest ih =>
    obtain ⟨k', v'⟩ := p
    simp only [dbInsert]
    by_cases h1 : byteLt k k'
    · simp [h1, dbGet]
    · by_cases h2 : k = k'
      · rw [if_neg h1, if_pos h2]
        simp [dbGet]
      · have h2' : ¬ k' = k := fun h => h2 h.symm
        simp [h1, h2, dbGet, h2', ih]

theorem dbGet_insert_ne (k' k : Bytes) (v : Val) (db : Db) (h : k' ≠ k) :
    dbGet (dbInsert k v db) k' = dbGet db k' := by
  have h' : ¬ k = k' := fun hh => h hh.symm
  induction db with
  | nil => simp [dbInsert, dbGet, h']
  | cons p rest ih =>
    obtain ⟨a, b⟩ := p
    simp only [dbInsert]
    by_cases h1 : byteLt k a
    · simp [h1, dbGet, h']
    · by_cases h2 : k = a
      · subst h2
        simp [h1, dbGet, h']
      · simp [h1, h2, dbGet, ih]

theorem dbRange_insert_out (db : Db) (k : Bytes) (v : Val) (lo hi : Bytes)
    (h : (byteLe lo k && byteLt k hi) = false) :
    dbRange (dbInsert k v db) lo hi = dbRange db lo hi := by
  induction db with
  | nil => simp [dbInsert, dbRange, h]
  | cons p rest ih =>
    obtain ⟨a, b⟩ := p
    simp only [dbInsert]
    by_cases h1 : byteLt k a
    · simp only [h1, if_true, dbRange, List.filter]
      simp [h]
    · by_cases h2 : k = a
      · subst h2
        simp only [h1, if_false, if_true, dbRange, List.filter]
        simp [h]
      · simp only [h1, h2, if_false, dbRange, List.filter] at ih ⊢
        rw [ih]

theorem be_bytes_length (n : Nat) : (be_bytes n).length = 8 := by
  simp [be_bytes]

theorem beToNat_be_bytes (n : Nat) (h : n < 2 ^ 64) :
    beToNat (be_bytes n) = n := by
  simp only [be_bytes, beToNat, List.foldl]
  omega

theorem buffer_to_u64_be_bytes (n : Nat) (h : n < 2 ^ 64) :
    buffer_to_u64 (be_bytes n) = some n := by
  simp [buffer_to_u64, be_bytes_length, beToNat_be_bytes n h]

/-! ## The successful `append_feed` path -/

theorem getGlobalOrderSeqDb_insert_ne (db : Db) (k : Bytes) (v : Val)
    (h : globalOrderKey ≠ k) :
    getGlobalOrderSeqDb (dbInsert k v db) = getGlobalOrderSeqDb db := by
  simp [getGlobalOrderSeqDb, dbGet_insert_ne _ _ _ _ h]

theorem appendFeedDb_run (db : Db) (ixs ch : Option Unit) (mv : MessageValue)
    (lo : Option Nat) (g : Nat)
    (hlo : getLatestSeqDb db mv.author = .ok lo)
    (hseq : mv.sequence = lo.getD 0 + 1)
    (hg : getGlobalOrderSeqDb db = .ok g) :
    appendFeedDb db ixs ch mv =
      (appendedDb db mv (lo.getD 0 + 1) (g + 1),
       match ch with
       | none => .error .OptionIsNone
       | some _ => .ok (lo.getD 0 + 1)) := by
  have hne : globalOrderKey ≠ key_msg_val mv.id := by
    simp [globalOrderKey, key_msg_val, PREFIX_MSG_VAL]
  have hins : getGlobalOrderSeqDb
      (dbInsert (key_msg_val mv.id)
        (Val.cborRef { pub_key := mv.author, seq_num := lo.getD 0 + 1 }) db) =
      .ok g := by
    rw [getGlobalOrderSeqDb_insert_ne _ _ _ hne, hg]
  simp only [appendFeedDb, hlo, hseq, MessageKvt.new, incrementGlobalSeqDb,
    hins, appendedDb, setPeerDb, ne_eq, not_true_eq_false, if_false,
    ite_false]
  cases ixs <;> cases ch <;> simp [index_msg]

theorem store_eta (s : Store) (db : Db) (h : s.db = some db) :
    { s with db := some db } = s := by
  cases s
  simp_all

theorem append_feed_run (s : Store) (db : Db) (mv : MessageValue)
    (lo : Option Nat) (g : Nat)
    (hdb : s.db = some db)
    (hlo : getLatestSeqDb db mv.author = .ok lo)
    (hseq : mv.sequence = lo.getD 0 + 1)
    (hg : getGlobalOrderSeqDb db = .ok g) :
    append_feed s mv =
      ({ s with db := some (appendedDb db mv (lo.getD 0 + 1) (g + 1)) },
       match s.ch_broker with
       | none => .error .OptionIsNone
       | some _ => .ok (lo.getD 0 + 1)) := by
  simp only [append_feed, hdb,
    appendFeedDb_run db s.indexes s.ch_broker mv lo g hlo hseq hg]

theorem key_latest_seq_ne_key_peer (u u' : Bytes) :
    key_latest_seq u ≠ key_peer u' := by
  simp [key_latest_seq, key_peer, PREFIX_LATEST_SEQ, PREFIX_PEER]

theorem append_feed_invalid_seq (s : Store) (mv : MessageValue)
    (lo : Option Nat)
    (hlo : get_latest_seq s mv.author = .ok lo)
    (hseq : mv.sequence ≠ lo.getD 0 + 1) :
    append_feed s mv = (s, .error .InvalidSequence) := by
  cases hdb : s.db with
  | none =>
    simp only [get_latest_seq, hdb] at hlo
    exact Except.noConfusion hlo
  | some db =>
    simp only [get_latest_seq, hdb] at hlo
    simp only [append_feed, hdb, appendFeedDb, hlo, if_pos hseq]
    rw [store_eta s db hdb]

/-- C1: for every message value `mv` and every store state, if `mv.seq`
differs from `latest_seq(mv.author) + 1` (with `latest_seq` read as 0 for
an unknown author), `append_feed` fails with `InvalidSequence` and returns
with the store — hence every key of the database — unchanged. -/
theorem C1_append_invalid_sequence_rejects (s : Store) (mv : MessageValue)
    (lo : Option Nat)
    (hlo : get_latest_seq s mv.author = .ok lo)
    (hseq : mv.sequence ≠ lo.getD 0 + 1) :
    append_feed s mv = (s, .error .InvalidSequence) :=
  append_feed_invalid_seq s mv lo hlo hseq

/-- Witness for C1: on an empty store, appending a message with declared
sequence 5 is rejected and the store is unchanged. -/
theorem C1_witness :
    append_feed ⟨some [], some (), some ()⟩
        { author := [97], sequence := 5, id := [109], content := [] } =
      (⟨some [], some (), some ()⟩, .error .InvalidSequence) :=
  C1_append_invalid_sequence_rejects _ _ none rfl (by decide)

/-- C2: whenever `append_feed` succeeds, the returned value is
`expected = latest_seq(author).unwrap_or(0) + 1` as read at the start of
the call, and afterwards both the latest-seq entry and the peer entry for
the author hold `expected` as a big-endian u64, so `get_latest_seq`
returns `Some(expected)`.  (`mv.sequence < 2^64` records that the declared
sequence is a Rust `u64`.) -/
theorem C2_append_success_updates (s s' : Store) (db : Db)
    (mv : MessageValue) (lo : Option Nat) (r : Nat)
    (hdb : s.db = some db)
    (hbound : mv.sequence < 2 ^ 64)
    (hlo : get_latest_seq s mv.author = .ok lo)
    (happ : append_feed s mv = (s', .ok r)) :
    r = lo.getD 0 + 1 ∧
    s'.get? (key_latest_seq mv.author) = some (.bytes (be_bytes r)) ∧
    s'.get? (key_peer mv.author) = some (.bytes (be_bytes r)) ∧
    get_latest_seq s' mv.author = .ok (some r) := by
  have hlo' : getLatestSeqDb db mv.author = .ok lo := by
    simpa only [get_latest_seq, hdb] using hlo
  by_cases hseq : mv.sequence = lo.getD 0 + 1
  · cases hg : getGlobalOrderSeqDb db with
    | error e =>
      exfalso
      have hne : globalOrderKey ≠ key_msg_val mv.id := by
        simp [globalOrderKey, key_msg_val, PREFIX_MSG_VAL]
      have hins : getGlobalOrderSeqDb
          (dbInsert (key_msg_val mv.id)
            (Val.cborRef { pub_key := mv.author, seq_num := lo.getD 0 + 1 })
            db) = .error e := by
        rw [getGlobalOrderSeqDb_insert_ne _ _ _ hne, hg]
      have hrun : (append_feed s mv).2 = .error e := by
        simp only [append_feed, hdb, appendFeedDb, hlo', hseq,
          MessageKvt.new, incrementGlobalSeqDb, hins, ne_eq,
          not_true_eq_false, if_false, ite_false]
      rw [happ] at hrun
      simp at hrun
    | ok g =>
      have hrun := append_feed_run s db mv lo g hdb hlo' hseq hg
      cases hch : s.ch_broker with
      | none =>
        rw [hch] at hrun
        rw [hrun] at happ
        simp at happ
      | some u =>
        rw [hch] at hrun
        rw [hrun] at happ
        have hr : lo.getD 0 + 1 = r := by
          simpa using congrArg Prod.snd happ
        subst hr
        have hdb' : s'.db =
            some (appendedDb db mv (lo.getD 0 + 1) (g + 1)) := by
          have h1 := congrArg (fun p => (Prod.fst p).db) happ
          simpa using h1.symm
        have hget : dbGet (appendedDb db mv (lo.getD 0 + 1) (g + 1))
            (key_latest_seq mv.author) =
            some (.bytes (be_bytes (lo.getD 0 + 1))) := by
          simp only [appendedDb, setPeerDb]
          rw [dbGet_insert_ne _ _ _ _ (key_latest_seq_ne_key_peer _ _),
            dbGet_insert_self]
        refine ⟨rfl, ?_, ?_, ?_⟩
        · simp only [Store.get?, hdb', hget]
        · simp only [Store.get?, hdb', appendedDb, setPeerDb]
          rw [dbGet_insert_self]
        · simp only [get_latest_seq, hdb', getLatestSeqDb, hget,
            buffer_to_u64_be_bytes _ (hseq ▸ hbound)]
  · exfalso
    have := append_feed_invalid_seq s mv lo hlo hseq
    rw [this] at happ
    simp at happ

/-- Witness for C2: after a first successful append on an empty store, the
author's latest sequence reads back as 1. -/
theorem C2_witness :
    get_latest_seq
      (append_feed ⟨some [], some (), some ()⟩
        { author := [97], sequence := 1, id := [109], content := [] }).1
      [97] = .ok (some 1) :=
  (C2_append_success_updates ⟨some [], some (), some ()⟩
    (append_feed ⟨some [], some (), some ()⟩
      { author := [97], sequence := 1, id := [109], content := [] }).1
    [] { author := [97], sequence := 1, id := [109], content := [] }
    none 1 rfl (by decide) rfl rfl).2.2.2

/-- C10: with the database and channel handles set but the indexer handle
unset, `append_feed` silently skips the indexer hand-off and still
succeeds; an unset channel or an unset database instead fails the call
with the `OptionIsNone` error (the spec's *OptionUnset* kind). -/
theorem C10_unset_indexes_skipped (mv : MessageValue) :
    (∀ s db lo g, s.db = some db → s.indexes = none →
      s.ch_broker = some () →
      get_latest_seq s mv.author = .ok lo → mv.sequence = lo.getD 0 + 1 →
      get_global_order_seq s = .ok g →
      (append_feed s mv).2 = .ok mv.sequence) ∧
    (∀ s db lo g, s.db = some db → s.ch_broker = none →
      get_latest_seq s mv.author = .ok lo → mv.sequence = lo.getD 0 + 1 →
      get_global_order_seq s = .ok g →
      (append_feed s mv).2 = .error .OptionIsNone) ∧
    (∀ s, s.db = none → (append_feed s mv).2 = .error .OptionIsNone) := by
  refine ⟨?_, ?_, ?_⟩
  · intro s db lo g hdb hix hch hlo hseq hg
    have hlo' : getLatestSeqDb db mv.author = .ok lo := by
      simpa only [get_latest_seq, hdb] using hlo
    have hg' : getGlobalOrderSeqDb db = .ok g := by
      simpa only [get_global_order_seq, hdb] using hg
    rw [append_feed_run s db mv lo g hdb hlo' hseq hg', hch, hseq]
  · intro s db lo g hdb hch hlo hseq hg
    have hlo' : getLatestSeqDb db mv.author = .ok lo := by
      simpa only [get_latest_seq, hdb] using hlo
    have hg' : getGlobalOrderSeqDb db = .ok g := by
      simpa only [get_global_order_seq, hdb] using hg
    rw [append_feed_run s db mv lo g hdb hlo' hseq hg', hch]
  · intro s hdb
    simp [append_feed, hdb]

/-- Witness for C10: a store with no indexer but a database and channel
accepts a first append. -/
theorem C10_witness :
    (append_feed ⟨some [], none, some ()⟩
      { author := [97], sequence := 1, id := [109], content := [] }).2 =
      .ok 1 :=
  (C10_unset_indexes_skipped _).1 _ [] none 0 rfl rfl rfl rfl (by decide) rfl

/-- Counterexample to C3: on a database whose bootstrap flag
`solar:global_order` is set while the global counter reads 0, `open` does
run the bootstrap again (the returned flag of `openKv` records that the
bootstrap branch was taken), contradicting the claim that a set flag
suppresses it. -/
theorem C3_counterexample :
    get_global_order_seq (openStore [(globalOrderFlagKey, Val.bytes [1])]) =
      .ok 0 ∧
    (openStore [(globalOrderFlagKey, Val.bytes [1])]).get?
      globalOrderFlagKey = some (.bytes [1]) ∧
    (openKv [(globalOrderFlagKey, Val.bytes [1])]).2 = .ok true := by
  refine ⟨rfl, rfl, rfl⟩

/-- C3 as amended: `open` runs the global-order bootstrap exactly when the
stored global counter reads zero — the `solar:global_order` flag is
written after a bootstrap but never consulted (kv.rs only tests
`global_order_seq == 0`) — and after a bootstrap the flag is set. -/
theorem C3_bootstrap_iff_zero_counter (db0 : Db) (g : Nat) (s' : Store)
    (ran : Bool)
    (hg : get_global_order_seq (openStore db0) = .ok g)
    (hopen : openKv db0 = (s', .ok ran)) :
    (ran = true ↔ g = 0) ∧
    (ran = true → s'.get? globalOrderFlagKey = some (.bytes [1])) := by
  simp only [openKv, hg] at hopen
  by_cases hz : g = 0
  · rw [if_pos hz] at hopen
    simp only [openStore] at hopen
    cases hb : buildGlobalOrderIndexDb db0 with
    | error e =>
      rw [hb] at hopen
      simp at hopen
    | ok db' =>
      rw [hb] at hopen
      simp only [Prod.mk.injEq] at hopen
      obtain ⟨hs', hran⟩ := hopen
      have hran' : ran = true := by simpa using hran.symm
      subst hran'
      refine ⟨by simp [hz], fun _ => ?_⟩
      rw [← hs']
      simp only [Store.get?, dbGet_insert_self]
  · rw [if_neg hz] at hopen
    have hran : ran = false := by
      simpa using congrArg Prod.snd hopen
    subst hran
    exact ⟨by simp [hz], by simp⟩

/-- Witness for C3 (amended): opening an empty database runs the
bootstrap and sets the flag. -/
theorem C3_witness :
    (openKv []).1.get? globalOrderFlagKey = some (.bytes [1]) :=
  (C3_bootstrap_iff_zero_counter [] 0 (openKv []).1 true rfl rfl).2 rfl

/-- Counterexample to C4: a `msg_val` reference pointing at a missing KVT
makes `get_msg_val` fail with `OptionIsNone` — the same error kind as an
unset handle — not with the distinct `StorageCorruption` kind the claim
names. -/
theorem C4_counterexample :
    get_msg_val
      ⟨some [(key_msg_val [109], Val.cborRef ⟨[97], 1⟩)], some (), some ()⟩
      [109] = .error .OptionIsNone ∧
    get_msg_val
      ⟨some [(key_msg_val [109], Val.cborRef ⟨[97], 1⟩)], some (), some ()⟩
      [109] ≠ .error .StorageCorruption := by
  refine ⟨rfl, by decide⟩

/-- C4 as amended: when the database holds a `msg_val` reference for `m`
whose target KVT is absent, `get_msg_val m` fails with `OptionIsNone`
(kv.rs line 215 reuses the unset-handle error; no distinct corruption
kind exists); when no reference for `m` exists it returns `None`. -/
theorem C4_dangling_reference (s : Store) (db : Db) (m : Bytes)
    (r : PubKeyAndSeqNum) (hdb : s.db = some db) :
    (dbGet db (key_msg_val m) = some (.cborRef r) →
      get_msg_kvt s r.pub_key r.seq_num = .ok none →
      get_msg_val s m = .error .OptionIsNone) ∧
    (dbGet db (key_msg_val m) = none → get_msg_val s m = .ok none) := by
  constructor
  · intro href hkvt
    have hk : getMsgKvtDb db r.pub_key r.seq_num = .ok none := by
      simpa only [get_msg_kvt, hdb] using hkvt
    simp only [get_msg_val, hdb, href, hk]
  · intro h
    simp only [get_msg_val, hdb, h]

/-- Witness for C4 (amended): concrete dangling reference. -/
theorem C4_witness :
    get_msg_val
      ⟨some [(key_msg_val [110], Val.cborRef ⟨[97], 2⟩)], some (), some ()⟩
      [110] = .error .OptionIsNone :=
  (C4_dangling_reference
    ⟨some [(key_msg_val [110], Val.cborRef ⟨[97], 2⟩)], some (), some ()⟩
    [(key_msg_val [110], Val.cborRef ⟨[97], 2⟩)] [110] ⟨[97], 2⟩ rfl).1
    rfl rfl

/-- C5, behavior at the failing input: `increment_global_seq` on an empty
database with message key `[109]` ("m") writes the forward entry
`global_seq:1 ↦ m` and updates the counter as claimed, but writes the
reverse entry under the misspelled `gloabl_seq:m` — no key under the
correctly spelled `global_seq:`-prefixed reverse spelling exists — even
though the comment in kv.rs (line 419) documents the reverse key as
`global_seq:{msg_ref}`. -/
theorem feedLoop_all_present (db : Db) (u : Bytes) (f : Nat → MessageKvt) :
    ∀ cnt start,
      (∀ i, start ≤ i → i < start + cnt →
        getMsgKvtDb db u i = .ok (some (f i))) →
      feedLoop db u start cnt = .ok ((List.range' start cnt).map f) := by
  intro cnt
  induction cnt with
  | zero => intro start _; simp [feedLoop]
  | succ c ih =>
    intro start h
    have h0 : getMsgKvtDb db u start = .ok (some (f start)) :=
      h start le_rfl (by omega)
    have htail := ih (start + 1) (fun i h1 h2 => h i (by omega) (by omega))
    simp only [feedLoop, h0, htail, List.range'_succ, List.map]

theorem feedLoop_missing (db : Db) (u : Bytes) (f : Nat → MessageKvt) :
    ∀ cnt start j, start ≤ j → j < start + cnt →
      getMsgKvtDb db u j = .ok none →
      (∀ i, start ≤ i → i < j → getMsgKvtDb db u i = .ok (some (f i))) →
      feedLoop db u start cnt = .error .OptionIsNone := by
  intro cnt
  induction cnt with
  | zero => intro start j h1 h2 _ _; omega
  | succ c ih =>
    intro start j h1 h2 hj hpre
    rcases Nat.eq_or_lt_of_le h1 with he | hlt
    · subst he
      simp only [feedLoop, hj]
    · have h0 : getMsgKvtDb db u start = .ok (some (f start)) :=
        hpre start le_rfl hlt
      have htail := ih (start + 1) j hlt (by omega) hj
        (fun i ha hb => hpre i (by omega) hb)
      simp only [feedLoop, h0, htail]

/-- C6 as amended: for an author with `get_latest_seq = Some n`, `get_feed`
returns exactly the KVT entries at sequences `1..=n`, in increasing
sequence order and hence with length `n`; a missing entry in that range
fails with `OptionIsNone` (kv.rs line 352 reuses the unset-handle error,
there is no distinct `StorageCorruption` kind); an author with no
latest-seq entry yields the empty list. -/
theorem C6_get_feed_contents (s : Store) (db : Db) (u : Bytes)
    (hdb : s.db = some db) :
    (get_latest_seq s u = .ok none → get_feed s u = .ok []) ∧
    (∀ (n : Nat) (f : Nat → MessageKvt), get_latest_seq s u = .ok (some n) →
      (∀ i, 1 ≤ i → i ≤ n → getMsgKvtDb db u i = .ok (some (f i))) →
      get_feed s u = .ok ((List.range' 1 n).map f) ∧
        ((List.range' 1 n).map f).length = n) ∧
    (∀ (n j : Nat) (f : Nat → MessageKvt), get_latest_seq s u = .ok (some n) → 1 ≤ j → j ≤ n →
      getMsgKvtDb db u j = .ok none →
      (∀ i, 1 ≤ i → i < j → getMsgKvtDb db u i = .ok (some (f i))) →
      get_feed s u = .error .OptionIsNone) := by
  refine ⟨?_, ?_, ?_⟩
  · intro h
    have h' : getLatestSeqDb db u = .ok none := by
      simpa only [get_latest_seq, hdb] using h
    simp only [get_feed, hdb, h']
  · intro n f h hall
    have h' : getLatestSeqDb db u = .ok (some n) := by
      simpa only [get_latest_seq, hdb] using h
    have hrun := feedLoop_all_present db u f n 1
      (fun i h1 h2 => hall i h1 (by omega))
    constructor
    · simp only [get_feed, hdb, h', hrun]
    · simp [List.length_range']
  · intro n j f h hj1 hj2 hmiss hpre
    have h' : getLatestSeqDb db u = .ok (some n) := by
      simpa only [get_latest_seq, hdb] using h
    have hrun := feedLoop_missing db u f n 1 j hj1 (by omega) hmiss hpre
    simp only [get_feed, hdb, h', hrun]

/-- Witness for C6 (amended): a one-message feed reads back in full. -/
theorem C6_witness :
    get_feed
      ⟨some [(key_latest_seq [97], Val.bytes (be_bytes 1)),
             (key_msg_kvt [97] 1,
              Val.kvtStr ⟨[109], ⟨[97], 1, [109], []⟩, none⟩)],
        some (), some ()⟩ [97] =
      .ok [⟨[109], ⟨[97], 1, [109], []⟩, none⟩] :=
  ((C6_get_feed_contents
    ⟨some [(key_latest_seq [97], Val.bytes (be_bytes 1)),
           (key_msg_kvt [97] 1,
            Val.kvtStr ⟨[109], ⟨[97], 1, [109], []⟩, none⟩)],
      some (), some ()⟩
    [(key_latest_seq [97], Val.bytes (be_bytes 1)),
     (key_msg_kvt [97] 1, Val.kvtStr ⟨[109], ⟨[97], 1, [109], []⟩, none⟩)]
    [97] rfl).2.1 1 (fun _ => ⟨[109], ⟨[97], 1, [109], []⟩, none⟩) rfl
    (by intro i h1 h2
        have hi : i = 1 := by omega
        subst hi
        rfl)).1

/-- Counterexample to C6: with a latest-seq entry of 1 and no stored KVT,
`get_feed` fails with `OptionIsNone`, not with the distinct
`StorageCorruption` kind the claim names. -/
theorem C6_counterexample :
    get_feed ⟨some [(key_latest_seq [97], Val.bytes (be_bytes 1))],
        some (), some ()⟩ [97] = .error .OptionIsNone ∧
    get_feed ⟨some [(key_latest_seq [97], Val.bytes (be_bytes 1))],
        some (), some ()⟩ [97] ≠ .error .StorageCorruption := by
  refine ⟨rfl, by decide⟩

theorem byteLt_nil_right (t : Bytes) : byteLt t [] = false := by
  cases t <;> simp [byteLt]

theorem getLatestSeqDb_insert_ne (db : Db) (k : Bytes) (v : Val) (u : Bytes)
    (h : key_latest_seq u ≠ k) :
    getLatestSeqDb (dbInsert k v db) u = getLatestSeqDb db u := by
  simp [getLatestSeqDb, dbGet_insert_ne _ _ _ _ h]

theorem peersLoop_insert (db : Db) (k : Bytes) (v : Val)
    (h : ∀ u : Bytes, key_latest_seq u ≠ k) :
    ∀ l, peersLoop (dbInsert k v db) l = peersLoop db l := by
  intro l
  induction l with
  | nil => rfl
  | cons p rest ih =>
    obtain ⟨kk, vv⟩ := p
    simp only [peersLoop, getLatestSeqDb_insert_ne db k v _ (h _), ih]

/-- C7: for the peer prefix class and the blob prefix class, inserting a
raw key whose first byte is one below or one above the class prefix leaves
the class's range scan (`get_peers`, `get_pending_blobs`) unchanged: the
scans use the inclusive lower bound `[P]` and the exclusive upper bound
`[P+1]`. -/
theorem C7_prefix_scan_isolation (s : Store) (db : Db)
    (hdb : s.db = some db) :
    (∀ (k : Bytes) (v : Val),
      k.head? = some (PREFIX_PEER - 1) ∨ k.head? = some (PREFIX_PEER + 1) →
      get_peers { s with db := some (dbInsert k v db) } = get_peers s) ∧
    (∀ (k : Bytes) (v : Val),
      k.head? = some (PREFIX_BLOB - 1) ∨ k.head? = some (PREFIX_BLOB + 1) →
      get_pending_blobs { s with db := some (dbInsert k v db) } =
        get_pending_blobs s) := by
  constructor
  · intro k v hk
    obtain ⟨c, t, rfl, hc⟩ : ∃ c t, k = c :: t ∧ (c = 3 ∨ c = 5) := by
      cases k with
      | nil => simp [PREFIX_PEER] at hk
      | cons a t =>
        simp only [List.head?, Option.some.injEq, PREFIX_PEER] at hk
        exact ⟨a, t, rfl, by omega⟩
    have hpred : (byteLe [PREFIX_PEER] (c :: t) &&
        byteLt (c :: t) [PREFIX_PEER + 1]) = false := by
      rcases hc with rfl | rfl <;>
        simp [byteLe, byteLt, byteLt_nil_right, PREFIX_PEER]
    have hkey : ∀ u : Bytes, key_latest_seq u ≠ c :: t := by
      intro u
      rcases hc with rfl | rfl <;>
        simp [key_latest_seq, PREFIX_LATEST_SEQ]
    simp only [get_peers, hdb, getPeersDb,
      dbRange_insert_out db (c :: t) v _ _ hpred,
      peersLoop_insert db (c :: t) v hkey]
  · intro k v hk
    obtain ⟨c, t, rfl, hc⟩ : ∃ c t, k = c :: t ∧ (c = 2 ∨ c = 4) := by
      cases k with
      | nil => simp [PREFIX_BLOB] at hk
      | cons a t =>
        simp only [List.head?, Option.some.injEq, PREFIX_BLOB] at hk
        exact ⟨a, t, rfl, by omega⟩
    have hpred : (byteLe [PREFIX_BLOB] (c :: t) &&
        byteLt (c :: t) [PREFIX_BLOB + 1]) = false := by
      rcases hc with rfl | rfl <;>
        simp [byteLe, byteLt, byteLt_nil_right, PREFIX_BLOB]
    simp only [get_pending_blobs, hdb, getPendingBlobsDb,
      dbRange_insert_out db (c :: t) v _ _ hpred]

/-- Witness for C7: inserting the single-byte key `[5]` next to a
one-peer database leaves `get_peers` unchanged. -/
theorem C7_witness :
    get_peers
      { db := some (dbInsert [5] (Val.bytes [42])
          [(key_latest_seq [97], Val.bytes (be_bytes 1)),
           (key_peer [97], Val.bytes (be_bytes 1))]),
        indexes := some (), ch_broker := some () } =
    get_peers
      ⟨some [(key_latest_seq [97], Val.bytes (be_bytes 1)),
             (key_peer [97], Val.bytes (be_bytes 1))],
        some (), some ()⟩ :=
  (C7_prefix_scan_isolation
    ⟨some [(key_latest_seq [97], Val.bytes (be_bytes 1)),
           (key_peer [97], Val.bytes (be_bytes 1))],
      some (), some ()⟩
    [(key_latest_seq [97], Val.bytes (be_bytes 1)),
     (key_peer [97], Val.bytes (be_bytes 1))] rfl).1
    [5] (Val.bytes [42]) (Or.inr rfl)

theorem byteLt_asymm :
    ∀ a b : Bytes, byteLt a b = true → byteLt b a = true → False
  | [], [], h1, _ => by simp [byteLt] at h1
  | [], _ :: _, _, h2 => by simp [byteLt] at h2
  | _ :: _, [], h1, _ => by simp [byteLt] at h1
  | a :: as, b :: bs, h1, h2 => by
    simp only [byteLt, Bool.or_eq_true, Bool.and_eq_true,
      decide_eq_true_eq, beq_iff_eq] at h1 h2
    rcases h1 with h1 | ⟨hab, h1⟩
    · rcases h2 with h2 | ⟨hba, h2⟩
      · omega
      · omega
    · rcases h2 with h2 | ⟨hba, h2⟩
      · omega
      · exact byteLt_asymm as bs h1 h2

theorem byteLt_cons_same (c : Nat) (a b : Bytes) :
    byteLt (c :: a) (c :: b) = byteLt a b := by
  simp [byteLt]

theorem pendingLoop_ok (l : List (Bytes × Val))
    (h : ∀ p ∈ l, ∃ st, p.2 = Val.cborBlob st) :
    pendingLoop l =
      .ok ((l.filter isPendingBlob).map fun p => p.1.drop 1) := by
  induction l with
  | nil => rfl
  | cons p rest ih =>
    obtain ⟨k, v⟩ := p
    obtain ⟨st, hv⟩ := h (k, v) (by simp)
    subst hv
    have htail := ih fun q hq => h q (by simp [hq])
    simp only [pendingLoop, htail, List.filter, isPendingBlob]
    cases hr : st.retrieved <;> simp [hr]

theorem byteLe_single_cons (c a : Nat) (t : Bytes)
    (h : byteLe [c] (a :: t) = true) : c ≤ a := by
  simp only [byteLe, byteLt, Bool.or_eq_true, Bool.and_eq_true,
    decide_eq_true_eq, beq_iff_eq, List.cons.injEq] at h
  rcases h with (h | ⟨h, -⟩) | ⟨h, -⟩ <;> omega

theorem byteLt_cons_single (a c : Nat) (t : Bytes)
    (h : byteLt (a :: t) [c] = true) : a < c := by
  simp only [byteLt, byteLt_nil_right, Bool.or_eq_true, Bool.and_eq_true,
    decide_eq_true_eq, beq_iff_eq, Bool.and_false, Bool.or_false] at h
  omega

theorem blob_range_shape (p : Bytes × Val) (db : Db)
    (hp : p ∈ dbRange db [PREFIX_BLOB] [PREFIX_BLOB + 1]) :
    ∃ t, p.1 = PREFIX_BLOB :: t := by
  simp only [dbRange, List.mem_filter, Bool.and_eq_true] at hp
  obtain ⟨-, h1, h2⟩ := hp
  cases hk : p.1 with
  | nil =>
    rw [hk] at h1
    simp [byteLe, byteLt, PREFIX_BLOB] at h1
  | cons a t =>
    rw [hk] at h1 h2
    refine ⟨t, ?_⟩
    have hle := byteLe_single_cons _ _ _ h1
    have hlt := byteLt_cons_single _ _ _ h2
    have ha : a = PREFIX_BLOB := by
      simp only [PREFIX_BLOB] at hle hlt ⊢
      omega
    rw [ha]

/-- C8: `get_pending_blobs` returns exactly the ids (key bytes after the
prefix byte) of stored blobs whose `retrieved` flag is false, in the
lexicographic order of the blob keys, and the result depends only on the
set of entries, not on insertion order (any sorted permutation of the
database yields the same output). -/
theorem C8_pending_blobs_ordered (s : Store) (db : Db)
    (hdb : s.db = some db)
    (hsorted : db.Pairwise fun p q => byteLt p.1 q.1 = true)
    (hblob : ∀ p ∈ dbRange db [PREFIX_BLOB] [PREFIX_BLOB + 1],
      ∃ st, p.2 = Val.cborBlob st) :
    get_pending_blobs s =
      .ok (((dbRange db [PREFIX_BLOB] [PREFIX_BLOB + 1]).filter
        isPendingBlob).map fun p => p.1.drop 1) ∧
    (((dbRange db [PREFIX_BLOB] [PREFIX_BLOB + 1]).filter
        isPendingBlob).map fun p => p.1.drop 1).Pairwise
      (fun a b => byteLt a b = true) ∧
    (∀ db2 : Db, db2.Perm db →
      db2.Pairwise (fun p q => byteLt p.1 q.1 = true) →
      get_pending_blobs { s with db := some db2 } = get_pending_blobs s) := by
  have hrange : (dbRange db [PREFIX_BLOB] [PREFIX_BLOB + 1]).Pairwise
      fun p q => byteLt p.1 q.1 = true :=
    hsorted.sublist (List.filter_sublist db)
  have hfilter : ((dbRange db [PREFIX_BLOB] [PREFIX_BLOB + 1]).filter
      isPendingBlob).Pairwise fun p q => byteLt p.1 q.1 = true :=
    hrange.sublist (List.filter_sublist _)
  refine ⟨?_, ?_, ?_⟩
  · simp only [get_pending_blobs, hdb, getPendingBlobsDb,
      pendingLoop_ok _ hblob]
  · rw [List.pairwise_map]
    refine hfilter.imp_of_mem ?_
    intro p q hp hq hlt
    have hp' := blob_range_shape p db (List.mem_of_mem_filter hp)
    have hq' := blob_range_shape q db (List.mem_of_mem_filter hq)
    obtain ⟨tp, hp1⟩ := hp'
    obtain ⟨tq, hq1⟩ := hq'
    rw [hp1, hq1] at hlt ⊢
    rw [byteLt_cons_same] at hlt
    simpa using hlt
  · intro db2 hperm hsorted2
    haveI : IsAntisymm (Bytes × Val) (fun p q => byteLt p.1 q.1 = true) :=
      ⟨fun a b h1 h2 => (byteLt_asymm a.1 b.1 h1 h2).elim⟩
    have : db2 = db := List.eq_of_perm_of_sorted hperm hsorted2 hsorted
    rw [this]
    have : { s with db := some db } = s := store_eta s db hdb
    rw [this]

/-- Witness for C8: three stored blobs, the middle one retrieved, yield
the two pending ids in key order. -/
theorem C8_witness :
    get_pending_blobs
      ⟨some [(key_blob [98, 49], Val.cborBlob ⟨false, [[117, 50]]⟩),
             (key_blob [98, 50], Val.cborBlob ⟨true, [[117, 55]]⟩),
             (key_blob [98, 51], Val.cborBlob ⟨false, []⟩)],
        some (), some ()⟩ = .ok [[98, 49], [98, 51]] :=
  (C8_pending_blobs_ordered
    ⟨some [(key_blob [98, 49], Val.cborBlob ⟨false, [[117, 50]]⟩),
           (key_blob [98, 50], Val.cborBlob ⟨true, [[117, 55]]⟩),
           (key_blob [98, 51], Val.cborBlob ⟨false, []⟩)],
      some (), some ()⟩
    [(key_blob [98, 49], Val.cborBlob ⟨false, [[117, 50]]⟩),
     (key_blob [98, 50], Val.cborBlob ⟨true, [[117, 55]]⟩),
     (key_blob [98, 51], Val.cborBlob ⟨false, []⟩)] rfl
    (by decide)
    (by
      intro p hp
      have hr : dbRange
          [(key_blob [98, 49], Val.cborBlob ⟨false, [[117, 50]]⟩),
           (key_blob [98, 50], Val.cborBlob ⟨true, [[117, 55]]⟩),
           (key_blob [98, 51], Val.cborBlob ⟨false, []⟩)]
          [PREFIX_BLOB] [PREFIX_BLOB + 1] =
          [(key_blob [98, 49], Val.cborBlob ⟨false, [[117, 50]]⟩),
           (key_blob [98, 50], Val.cborBlob ⟨true, [[117, 55]]⟩),
           (key_blob [98, 51], Val.cborBlob ⟨false, []⟩)] := rfl
      rw [hr] at hp
      simp only [List.mem_cons, List.not_mem_nil, or_false] at hp
      rcases hp with rfl | rfl | rfl
      · exact ⟨⟨false, [[117, 50]]⟩, rfl⟩
      · exact ⟨⟨true, [[117, 55]]⟩, rfl⟩
      · exact ⟨⟨false, []⟩, rfl⟩)).1

/-- C9: `buffer_to_u64` copies the stored value into a fixed 8-byte array
and so is total only when every stored latest-seq value is exactly 8 bytes:
any other length panics (`Err.Panicked`, never a returned error), and the
panic propagates through `get_latest_seq` and `get_peers`. -/
theorem C9_buffer_decode_panics :
    (∀ b : Bytes, b.length ≠ 8 → buffer_to_u64 b = none) ∧
    (∀ b : Bytes, b.length = 8 → buffer_to_u64 b = some (beToNat b)) ∧
    (∀ (s : Store) (db : Db) (u b : Bytes), s.db = some db →
      dbGet db (key_latest_seq u) = some (.bytes b) → b.length ≠ 8 →
      get_latest_seq s u = .error .Panicked) ∧
    (∀ (s : Store) (db : Db) (u b : Bytes) (w : Val)
      (rest : List (Bytes × Val)), s.db = some db →
      dbRange db [PREFIX_PEER] [PREFIX_PEER + 1] = (key_peer u, w) :: rest →
      dbGet db (key_latest_seq u) = some (.bytes b) → b.length ≠ 8 →
      get_peers s = .error .Panicked) := by
  have hcore : ∀ (db : Db) (u b : Bytes),
      dbGet db (key_latest_seq u) = some (.bytes b) → b.length ≠ 8 →
      getLatestSeqDb db u = .error .Panicked := by
    intro db u b hget hlen
    simp only [getLatestSeqDb, hget, buffer_to_u64, hlen, if_false,
      ite_false]
  refine ⟨?_, ?_, ?_, ?_⟩
  · intro b h
    simp [buffer_to_u64, h]
  · intro b h
    simp [buffer_to_u64, h]
  · intro s db u b hdb hget hlen
    simp only [get_latest_seq, hdb, hcore db u b hget hlen]
  · intro s db u b w rest hdb hrange hget hlen
    have hdrop : (key_peer u).drop 1 = u := by simp [key_peer]
    simp only [get_peers, hdb, getPeersDb, hrange, peersLoop, hdrop,
      hcore db u b hget hlen]

/-- Witness for C9: a 3-byte stored value is not decodable and
`get_latest_seq` panics on it. -/
theorem C9_witness :
    buffer_to_u64 [1, 2, 3] = none ∧
    get_latest_seq
      ⟨some [(key_latest_seq [97], Val.bytes [1, 2, 3])], some (), some ()⟩
      [97] = .error .Panicked :=
  ⟨C9_buffer_decode_panics.1 [1, 2, 3] (by decide),
   C9_buffer_decode_panics.2.2.1
     ⟨some [(key_latest_seq [97], Val.bytes [1, 2, 3])], some (), some ()⟩
     [(key_latest_seq [97], Val.bytes [1, 2, 3])] [97] [1, 2, 3]
     rfl rfl (by decide)⟩

theorem C5_reverse_key_misspelled :
    (incrementGlobalSeqDb [] [109]).toOption.bind
        (fun db => dbGet db (gloablSeqRevKey [109])) =
      some (.bytes (be_bytes 1)) ∧
    (incrementGlobalSeqDb [] [109]).toOption.bind
        (fun db => dbGet db (globalSeqTag ++ [109])) = none ∧
    (incrementGlobalSeqDb [] [109]).toOption.bind
        (fun db => dbGet db (globalSeqFwKey 1)) = some (.bytes [109]) ∧
    (incrementGlobalSeqDb [] [109]).toOption.bind
        (fun db => dbGet db globalOrderKey) = some (.bytes (be_bytes 1)) := by
  refine ⟨rfl, rfl, rfl, rfl⟩

end Solar
